import Mathlib

/-!
Verification development for the Baton concurrency core
(`src/core/queue.ts`, `src/core/session.ts`, `src/core/dispatcher.ts`).

The TypeScript sources are shallowly embedded: JavaScript objects become
structures, the per-session mutable state is threaded explicitly, fallible
calls return `Except`/`Option`, and the effect of invoking a stored
continuation (`pending.resolve(...)`) is made observable as an `Option String`
result carrying the argument the continuation was invoked with.

Identity of freshly generated values (`generateUUID()` for task ids) is
modelled by a serial number (`Nat`) drawn from a counter threaded through the
operations: each enqueue creates a brand-new task object, and the counter
stands for that freshness.

The queue engine embedded below is the lock-based variant of
`TaskQueueEngine` (the one whose `enqueue` acquires a per-session gate and
whose `processNext` checks the queue before resetting state); in this
sequential embedding the gate is the identity, so `enqueue` is the body that
runs under the gate.  The older clear-then-refill variant of `processNext`
kept alongside the session manager is embedded separately as
`processNextLegacy` where a claim depends on the difference.
-/

namespace Baton

/-- Task kind: `'prompt' | 'command'` (src/types.ts). -/
inductive TaskType where
  | prompt
  | command
deriving DecidableEq, Repr

/-- The `Task` structure from src/types.ts: `{id, type, content, timestamp}`.  The UUID `id`
is modelled as a serial `Nat` (see header); the timestamp plays no role in any
claim and is omitted. -/
structure Task where
  id : Nat
  ttype : TaskType
  content : String
deriving DecidableEq, Repr

/-- The `data` payload attached by `TaskQueueEngine.enqueue` to a queued
acknowledgement: `{ taskId, position }`. -/
structure AckData where
  taskId : Nat
  position : Nat
deriving DecidableEq, Repr

/-- The `IMResponse` structure from src/types.ts: `{success, message, data?}`; only the
enqueue acknowledgement ever carries `data` in the embedded operations. -/
structure IMResponse where
  success : Bool
  message : String
  data : Option AckData
deriving DecidableEq, Repr

/-- One `(optionId, name)` pair as stored in
`pendingInteractions.set(...).data.options` (src/core/session.ts line 106). -/
structure PendingOption where
  optionId : String
  name : String
deriving DecidableEq, Repr

/-- The `type` tag of a pending interaction. -/
inductive InteractionType where
  | permission
  | modeSelection
  | modelSelection
  | repoSelection
deriving DecidableEq, Repr

/-- A pending interaction as stored in `session.pendingInteractions`.  The
`resolve`/`reject` continuations are not stored; instead every embedded
operation that would invoke `resolve(x)` reports `some x` in its result.
`data.options` mirrors `req.options.map(o => ({optionId, name}))`
(src/core/session.ts line 106), so the timeout callback, which reads
`req.options`, is embedded over the same list. -/
structure PendingInteraction where
  itype : InteractionType
  title : String
  options : List PendingOption
deriving DecidableEq, Repr

/-- The queue field `session.queue : { pending: Task[], current: Task | null }`. -/
structure Queue where
  pending : List Task
  current : Option Task
deriving DecidableEq, Repr

/-- The `Session` structure from src/types.ts restricted to the fields the claims touch.
`acpClient : Bool` records whether the agent handle is attached (non-null);
`pendingInteractions` is the insertion-ordered `Map` as an association list
(JS `Map` keys are unique, so deletion is embedded as filtering the key
out). -/
structure Session where
  id : String
  userId : String
  projectPath : String
  acpClient : Bool
  queue : Queue
  isProcessing : Bool
  pendingInteractions : List (String × PendingInteraction)
deriving DecidableEq, Repr

/-- The queued acknowledgement text
`` `请求已加入队列，当前排在第 ${position} 位，请稍候...` ``
(src/core/queue.ts). -/
def queuedMessage (position : Nat) : String :=
  "请求已加入队列，当前排在第 " ++ toString position ++ " 位，请稍候..."

/-- Embeds `TaskQueueEngine.enqueue` (lock-based variant, src/unnamed/part_001
lines 42-106; the body below is what runs while the per-session gate is
held, which in a sequential embedding is the whole effect).  `newId` is the
freshly generated task id.  Returns the mutated session and the
acknowledgement. -/
def enqueue (s : Session) (newId : Nat) (ttype : TaskType) (content : String) :
    Session × IMResponse :=
  let task : Task := ⟨newId, ttype, content⟩
  if !s.isProcessing && s.queue.current.isNone then
    ({ s with queue := { s.queue with current := some task }, isProcessing := true },
     ⟨true, "", none⟩)
  else
    let pending := s.queue.pending ++ [task]
    let position := pending.length
    ({ s with queue := { s.queue with pending := pending } },
     ⟨true, queuedMessage position, some ⟨newId, position⟩⟩)

/-- Embeds `TaskQueueEngine.processNext` (lock-based variant, src/unnamed/part_001
lines 160-180): check the queue first; if non-empty, shift the head into
`current` and leave `isProcessing` as it is (the source comment says it
"stays true"); only when empty clear `current` and reset `isProcessing`. -/
def processNext (s : Session) : Session :=
  match s.queue.pending with
  | nextTask :: rest =>
      { s with queue := ⟨rest, some nextTask⟩ }
  | [] =>
      { s with queue := ⟨[], none⟩, isProcessing := false }

/-- Embeds `TaskQueueEngine.processNext`, older clear-then-refill variant
(src/src/core/session.ts lines 622-640): reset `current`/`isProcessing`
first, then admit the next pending task if any. -/
def processNextLegacy (s : Session) : Session :=
  let s1 := { s with queue := { s.queue with current := none }, isProcessing := false }
  match s1.queue.pending with
  | nextTask :: rest =>
      { s1 with queue := ⟨rest, some nextTask⟩, isProcessing := true }
  | [] => s1

/-- Outcome of the agent call made inside `processTask`: either the
`IMResponse` returned by `sendPrompt`/`sendCommand`, or the message of an
exception it threw. -/
inductive AgentOutcome where
  | ok (resp : IMResponse)
  | thrown (errMsg : String)
deriving DecidableEq, Repr

/-- Embeds `TaskQueueEngine.processTask` (lock-based variant, src/unnamed/part_001
lines 112-157).  The returned `IMResponse` is the argument passed to the
`onTaskComplete` completion callback.  Mirrors the control flow exactly:
when `acpClient` is null the failure result is delivered and the function
returns *before* the `try`/`finally`, so `processNext` is not invoked on
that path; otherwise the agent outcome (or the caught exception, converted
to `处理失败: ...`) is delivered and `processNext` runs in the `finally`
block. -/
def processTask (s : Session) (outcome : AgentOutcome) : Session × IMResponse :=
  if !s.acpClient then
    (s, ⟨false, "系统错误：ACP 客户端未初始化", none⟩)
  else
    match outcome with
    | .ok r => (processNext s, r)
    | .thrown e => (processNext s, ⟨false, "处理失败: " ++ e, none⟩)

/-- Embeds `TaskQueueEngine.processTask`, older variant (src/src/core/session.ts
lines 576-620), which calls `await this.processNext(session)` explicitly in
the missing-client branch before returning. -/
def processTaskLegacy (s : Session) (outcome : AgentOutcome) : Session × IMResponse :=
  if !s.acpClient then
    (processNextLegacy s, ⟨false, "系统错误：ACP 客户端未初始化", none⟩)
  else
    match outcome with
    | .ok r => (processNextLegacy s, r)
    | .thrown e => (processNextLegacy s, ⟨false, "处理失败: " ++ e, none⟩)

/-- Target of `SessionManager.stopTask` (src/core/session.ts lines 322-378):
`taskId === 'all'`, a concrete task id, or absent (stop the current task).
The reserved string `'all'` is a separate constructor since a generated task
UUID never equals it. -/
inductive StopTarget where
  | all
  | one (taskId : Nat)
  | current
deriving DecidableEq, Repr

/-- Remove the first task with the given id from the list (the
`findIndex`/`splice(index, 1)` pair in `stopTask`); `none` when no task
matches. -/
def removeFirstTask : List Task → Nat → Option (List Task)
  | [], _ => none
  | t :: ts, tid =>
      if t.id = tid then some ts
      else (removeFirstTask ts tid).map (fun l => t :: l)

/-- Embeds `SessionManager.stopTask` restricted to its effect on the session state
and its response (the `cancelCurrentTask` call on the agent handle is an
external effect).  Mirrors the three branches of lines 331-377. -/
def stopTask (s : Session) (target : StopTarget) : Session × IMResponse :=
  match target with
  | .all =>
      ({ s with queue := ⟨[], none⟩, isProcessing := false },
       ⟨true, "All tasks stopped and queue cleared.", none⟩)
  | .one tid =>
      match removeFirstTask s.queue.pending tid with
      | some pending =>
          ({ s with queue := { s.queue with pending := pending } },
           ⟨true, "Task removed from queue.", none⟩)
      | none =>
          (s, ⟨false, "Task not found in queue.", none⟩)
  | .current =>
      if s.queue.current.isSome && s.acpClient then
        ({ s with queue := { s.queue with current := none }, isProcessing := false },
         ⟨true, "Current task stopped.", none⟩)
      else
        (s, ⟨true, "No running task to stop.", none⟩)

/-! ## Session registry (src/core/session.ts) -/

/-- Embeds `SessionManager.buildSessionKey` (src/core/session.ts lines 57-62):
`` `${userId}:${contextId}:${this.projectPath}` `` when a context id is
present, `` `${userId}:${this.projectPath}` `` otherwise. -/
def buildSessionKey (projectPath userId : String) (contextId : Option String) :
    String :=
  match contextId with
  | some c => userId ++ ":" ++ c ++ ":" ++ projectPath
  | none => userId ++ ":" ++ projectPath

/-- The session a fresh `getOrCreateSession` constructs (src/core/session.ts
lines 68-82): empty queue, not processing, no agent handle, no pending
interactions.  `newId` is the generated session UUID. -/
def freshSession (newId userId projectPath : String) : Session :=
  ⟨newId, userId, projectPath, false, ⟨[], none⟩, false, []⟩

/-- Look a key up in the registry map (the module-level `sessions` Map,
embedded as an insertion-ordered association list with unique keys). -/
def lookupKey (sessions : List (String × Session)) (key : String) :
    Option Session :=
  (sessions.find? (fun p => p.1 = key)).map (fun p => p.2)

/-- Embeds `sessions.set(key, s)` for a key already present: replace the first
(only) binding of the key. -/
def setKey : List (String × Session) → String → Session →
    List (String × Session)
  | [], key, s => [(key, s)]
  | p :: ps, key, s =>
      if p.1 = key then (key, s) :: ps else p :: setKey ps key s

/-- Embeds `SessionManager.getOrCreateSession` (src/core/session.ts lines 64-158).
`start` is the result of `acpClient.startAgent()`: `.ok ()` when the handle
starts, `.error e` when it throws.  Mirrors the source order: the fresh
session is registered in the map *before* the agent handle is started, and a
start failure propagates while the map keeps whatever it holds at that
point.  (Syncing mode/model inventories is dropped: those fields play no
role in any claim.) -/
def getOrCreateSession (sessions : List (String × Session))
    (projectPath userId : String) (contextId : Option String)
    (newId : String) (start : Except String Unit) :
    List (String × Session) × Except String Session :=
  let key := buildSessionKey projectPath userId contextId
  let sessions1 :=
    match lookupKey sessions key with
    | some _ => sessions
    | none => sessions ++ [(key, freshSession newId userId projectPath)]
  match lookupKey sessions1 key with
  | none => (sessions1, .error "unreachable: key was just inserted")
  | some s =>
      if s.acpClient then (sessions1, .ok s)
      else
        match start with
        | .ok _ =>
            let started := { s with acpClient := true }
            (setKey sessions1 key started, .ok started)
        | .error e => (sessions1, .error e)

/-- Embeds `SessionManager.getSession` (src/core/session.ts lines 269-272): pure
lookup by session key, never creates. -/
def getSession (sessions : List (String × Session))
    (projectPath userId : String) (contextId : Option String) :
    Option Session :=
  lookupKey sessions (buildSessionKey projectPath userId contextId)

/-! ## Interaction resolution (src/core/session.ts lines 124-204, 244-250) -/

/-- The leading decimal digits of a character list (used by the embedding of
JS `parseInt(str, 10)`). -/
def leadingDigits : List Char → List Char
  | [] => []
  | c :: cs => if c.isDigit then c :: leadingDigits cs else []

/-- Numeric value of a list of decimal digit characters. -/
def digitsToNat (ds : List Char) : Nat :=
  ds.foldl (fun acc c => acc * 10 + (c.toNat - 48)) 0

/-- JS `parseInt(str, 10)`: skip leading whitespace, read an optional sign,
then the longest prefix of decimal digits; `NaN` (here `none`) when no digit
follows.  (`parseInt("-0")` gives `-0 = 0`, matching JS where `-0 >= 0`.) -/
def parseIntJS (s : String) : Option Int :=
  let cs := s.data.dropWhile (fun c => c = ' ' || c = '\t' || c = '\n' || c = '\r')
  let signAndRest : Bool × List Char :=
    match cs with
    | '-' :: t => (true, t)
    | '+' :: t => (false, t)
    | _ => (false, cs)
  match leadingDigits signAndRest.2 with
  | [] => none
  | ds => some (if signAndRest.1 then -(digitsToNat ds : Int) else (digitsToNat ds : Int))

/-- The `InvalidOption` message of `resolveInteraction`
(src/core/session.ts line 193):
`` `无效的选项: ${arg}。可选: ${ids.join(', ')} 或序号 0-${options.length - 1}` ``.
The upper index bound is computed over `Int` because JS prints `-1` for an
empty option list. -/
def invalidOptionMessage (arg : String) (options : List PendingOption) : String :=
  "无效的选项: " ++ arg ++ "。可选: " ++
    String.intercalate ", " (options.map (fun o => o.optionId)) ++
    " 或序号 0-" ++ toString ((options.length : Int) - 1)

/-- The option id `resolveInteraction` settles on, if any
(src/core/session.ts lines 180-196): first try `optionIdOrIndex` as a
zero-based index (`parseInt`, then `0 <= index < options.length`); otherwise
accept it only when it equals some option's id. -/
def finalOptionId (options : List PendingOption) (optionIdOrIndex : String) :
    Option String :=
  let byId : Option String :=
    if options.any (fun o => o.optionId = optionIdOrIndex) then some optionIdOrIndex
    else none
  match parseIntJS optionIdOrIndex with
  | some index =>
      if 0 ≤ index ∧ index < (options.length : Int) then
        some (options.getD index.toNat ⟨"", ""⟩).optionId
      else byId
  | none => byId

/-- The body of `SessionManager.resolveInteraction` after the session has
been located (src/core/session.ts lines 175-203).  Returns the updated
session, the `IMResponse`, and `some x` when the stored `resolve`
continuation was invoked with `x`.  Deleting from the `Map` is embedded as
filtering the key out of the association list. -/
def resolveInSession (s : Session) (requestId optionIdOrIndex : String) :
    Session × IMResponse × Option String :=
  match s.pendingInteractions.find? (fun p => p.1 = requestId) with
  | none => (s, ⟨false, "Permission request not found or expired", none⟩, none)
  | some pr =>
      match finalOptionId pr.2.options optionIdOrIndex with
      | none =>
          (s, ⟨false, invalidOptionMessage optionIdOrIndex pr.2.options, none⟩, none)
      | some fid =>
          ({ s with pendingInteractions :=
              s.pendingInteractions.filter (fun p => p.1 ≠ requestId) },
           ⟨true, "已选择选项: " ++ fid, none⟩,
           some fid)

/-- Replace the first session with the given id (the source finds the
session object by scanning `sessions.values()` and mutates it in place). -/
def updateFirstSession : List Session → String → Session → List Session
  | [], _, _ => []
  | s :: ss, sid, s' =>
      if s.id = sid then s' :: ss else s :: updateFirstSession ss sid s'

/-- Embeds `SessionManager.resolveInteraction` (src/core/session.ts lines 161-204):
linear scan for the session by id, then resolve within it. -/
def resolveInteraction (sessions : List Session)
    (sessionId requestId optionIdOrIndex : String) :
    List Session × IMResponse × Option String :=
  match sessions.find? (fun s => s.id = sessionId) with
  | none => (sessions, ⟨false, "Session not found", none⟩, none)
  | some s =>
      let r := resolveInSession s requestId optionIdOrIndex
      (updateFirstSession sessions sessionId r.1, r.2)

/-- Is `pat` a prefix of `cs`? (helper for the substring test). -/
def matchesAt : List Char → List Char → Bool
  | [], _ => true
  | _ :: _, [] => false
  | p :: ps, c :: cs => p = c && matchesAt ps cs

/-- Does `cs` contain `pat` as a contiguous substring? -/
def containsChars (cs pat : List Char) : Bool :=
  match cs with
  | [] => matchesAt pat []
  | _ :: rest => matchesAt pat cs || containsChars rest pat

/-- JS `String.prototype.includes` for the strings used here. -/
def strHasSub (s pat : String) : Bool :=
  containsChars s.data pat.data

/-- ASCII lowercasing of one character (JS `toLowerCase` restricted to the
ASCII range, which covers the option labels involved here). -/
def toLowerChar (c : Char) : Char :=
  if 'A' ≤ c ∧ c ≤ 'Z' then Char.ofNat (c.toNat + 32) else c

/-- JS `String.prototype.toLowerCase` (ASCII range). -/
def strToLower (s : String) : String :=
  ⟨s.data.map toLowerChar⟩

/-- The predicate of the timeout callback's option search
(src/core/session.ts lines 130-133):
`o.name.toLowerCase().includes('deny') || o.name.toLowerCase().includes('cancel')`. -/
def isDenyOrCancel (o : PendingOption) : Bool :=
  strHasSub (strToLower o.name) "deny" || strHasSub (strToLower o.name) "cancel"

/-- JS `a || b` on a possibly-undefined string `a`: `undefined` and the
empty string are both falsy. -/
def jsOrStr (a : Option String) (b : String) : String :=
  match a with
  | none => b
  | some s => if s = "" then b else s

/-- The fallback option id computed by the permission timeout callback
(src/core/session.ts lines 129-135):
`find(deny/cancel)?.optionId || options[0]?.optionId || 'deny'`. -/
def fallbackOption (options : List PendingOption) : String :=
  jsOrStr ((options.find? isDenyOrCancel).map (fun o => o.optionId))
    (jsOrStr ((options.head?).map (fun o => o.optionId)) "deny")

/-- Modelled from the spec's words, for comparison with `fallbackOption`
(spec §4.1: "prefer an option whose label matches (case-insensitively)
'deny' or 'cancel'; otherwise take the first option; if no options exist,
resolve with the literal string 'deny'"). -/
def fallbackOptionSpec (options : List PendingOption) : String :=
  match options.find? isDenyOrCancel with
  | some o => o.optionId
  | none =>
      match options.head? with
      | some o => o.optionId
      | none => "deny"

/-- The permission timeout callback (src/core/session.ts lines 125-140): if
the request id is still in the mapping, invoke its `resolve` with the
fallback option and delete the entry; otherwise do nothing.  Returns the
updated session and `some x` when the continuation was invoked with `x`. -/
def timeoutFireSession (s : Session) (requestId : String) :
    Session × Option String :=
  match s.pendingInteractions.find? (fun p => p.1 = requestId) with
  | some pr =>
      ({ s with pendingInteractions :=
          s.pendingInteractions.filter (fun p => p.1 ≠ requestId) },
       some (fallbackOption pr.2.options))
  | none => (s, none)

/-- One repository entry as passed to `createRepoSelection`
(src/core/session.ts lines 207-211): `{index, name, path}`. -/
structure RepoEntry where
  index : Nat
  name : String
  path : String
deriving DecidableEq, Repr

/-- The option list `createRepoSelection` stores for the interaction
(src/core/session.ts line 248):
`repos.map(r => ({ optionId: String(r.index), name: r.name }))` — the
option *ids* are the repos' numeric indices printed as strings. -/
def repoSelectionOptions (repos : List RepoEntry) : List PendingOption :=
  repos.map (fun r => ⟨toString r.index, r.name⟩)

/-- Embeds `CommandDispatcher.handlePrompt` in the case that drives implicit
cancellation (src/core/dispatcher.ts lines 209-230): the session has at
least one pending interaction and the inbound text was classified as a
plain prompt (so by the dispatch override it is neither purely numeric nor
a mode/model command).  The dispatcher stops the current task, then calls
`resolveInteraction(session.id, requestId, 'cancel')` for each pending
request id, then enqueues the new text as a fresh prompt task.  The
registry-level `resolveInteraction` finds this very session by its id, so
the per-session `resolveInSession` is folded directly.  Returns the final
session, the enqueue acknowledgement, and the list of continuation
invocations the cancellation loop produced. -/
def handlePromptBusy (s : Session) (newId : Nat) (text : String) :
    Session × IMResponse × List (Option String) :=
  let s1 := (stopTask s .current).1
  let rids := s1.pendingInteractions.map (fun p => p.1)
  let folded := rids.foldl
    (fun acc rid =>
      let r := resolveInSession acc.1 rid "cancel"
      (r.1, acc.2 ++ [r.2.2]))
    (s1, ([] : List (Option String)))
  let enq := enqueue folded.1 newId .prompt text
  (enq.1, enq.2, folded.2)

/-! ## Derived forms used by the theorems -/

/-- A sequence of `enqueue` calls against one session, task ids drawn from
the fresh-id counter in submission order; returns the final session and the
acknowledgements in order. -/
def enqueueAll : Session → Nat → List String → Session × List IMResponse
  | s, _, [] => (s, [])
  | s, n, c :: cs =>
      let e := enqueue s n .prompt c
      let r := enqueueAll e.1 (n + 1) cs
      (r.1, e.2 :: r.2)

/-- A session together with the fresh-id counter (see the header on task-id
freshness). -/
structure QSys where
  session : Session
  nextId : Nat
deriving DecidableEq, Repr

/-- One queue operation, as the claims enumerate them: an `enqueue`, the
advance step `processNext` (run when a task's execution completes), or a
`stopTask`. -/
inductive QStep : QSys → QSys → Prop where
  | enq (σ : QSys) (ttype : TaskType) (content : String) :
      QStep σ ⟨(enqueue σ.session σ.nextId ttype content).1, σ.nextId + 1⟩
  | advance (σ : QSys) :
      QStep σ ⟨processNext σ.session, σ.nextId⟩
  | stop (σ : QSys) (target : StopTarget) :
      QStep σ ⟨(stopTask σ.session target).1, σ.nextId⟩

/-- Queue states reachable from `σ0` by any sequence of queue operations. -/
inductive QReach (σ0 : QSys) : QSys → Prop where
  | refl : QReach σ0 σ0
  | step {σ τ : QSys} : QReach σ0 σ → QStep σ τ → QReach σ0 τ

/-- The queue state `getOrCreateSession` initialises: nothing pending,
nothing current, not processing. -/
def InitialQSys (σ : QSys) : Prop :=
  σ.session.queue.pending = [] ∧ σ.session.queue.current = none ∧
    σ.session.isProcessing = false

/-- All task ids held by the queue: the current task's (if any) followed by
the pending tasks'. -/
def taskIds (s : Session) : List Nat :=
  (match s.queue.current with
   | some t => [t.id]
   | none => []) ++ s.queue.pending.map Task.id

/-- Inductive invariant of the queue system: every held task id is below the
fresh counter, held ids are pairwise distinct, and `isProcessing` implies a
current task. -/
def QInv (s : Session) (n : Nat) : Prop :=
  (∀ i ∈ taskIds s, i < n) ∧
    (taskIds s).Nodup ∧
    (s.isProcessing = true → s.queue.current ≠ none)

/-- No `':'` occurs in the string (the separator `buildSessionKey` uses). -/
def ColonFree (s : String) : Prop := ∀ c ∈ s.data, c ≠ ':'

/-! ### Concrete states used by witnesses and counterexamples -/

/-- The two-option permission request of the spec's §8 example and of
tests/e2e/permission_flow.test.ts. -/
def allowDenyOptions : List PendingOption := [⟨"allow", "Allow"⟩, ⟨"deny", "Deny"⟩]

/-- An idle session with an attached agent handle and one pending permission
interaction keyed `"r"`. -/
def permSession : Session :=
  ⟨"sid", "u", "p", true, ⟨[], none⟩, false,
   [("r", ⟨.permission, "Test Tool", allowDenyOptions⟩)]⟩

/-- An idle session with an attached agent handle and no pending
interactions. -/
def idleSession : Session :=
  ⟨"sid", "u", "p", true, ⟨[], none⟩, false, []⟩

/-- Variant of `permSession` while its task is executing (current task in flight). -/
def busyPermSession : Session :=
  ⟨"sid", "u", "p", true, ⟨[], some ⟨0, .prompt, "old"⟩⟩, true,
   [("r", ⟨.permission, "Test Tool", allowDenyOptions⟩)]⟩

/-- A session whose agent handle is missing (`acpClient` null) while a task
is current and another is pending — the input on which `processTask` must
still advance the queue. -/
def stuckSession : Session :=
  ⟨"sid", "u", "p", false, ⟨[⟨1, .prompt, "b"⟩], some ⟨0, .prompt, "a"⟩⟩, true, []⟩

/-- Option list whose deny-labelled option has an empty-string id. -/
def emptyIdOptions : List PendingOption := [⟨"x", "allow"⟩, ⟨"", "deny"⟩]

/-- A session holding one pending interaction with `emptyIdOptions`. -/
def emptyIdSession : Session :=
  ⟨"sid", "u", "p", true, ⟨[], none⟩, false,
   [("r", ⟨.permission, "t", emptyIdOptions⟩)]⟩

/-- The queue-system state the C2 counterexample trace ends in:
enqueue "A", enqueue "B", stop the current task, then the in-flight task's
completion runs `processNext`. -/
def stopThenAdvance : QSys :=
  ⟨processNext
      (stopTask (enqueue (enqueue idleSession 0 .prompt "A").1 1 .prompt "B").1
        .current).1,
   2⟩

/-! ## Theorems -/

/-- An enqueue against a busy session (processing, or a task current)
appends to `pending` and acknowledges with the 1-based position. -/
lemma enqueue_busy (b : Session) (m : Nat) (tt : TaskType) (d : String)
    (hb : b.isProcessing = true ∨ b.queue.current ≠ none) :
    (enqueue b m tt d).1 =
      { b with queue := { b.queue with pending := b.queue.pending ++ [⟨m, tt, d⟩] } } ∧
    (enqueue b m tt d).2 =
      ⟨true, queuedMessage (b.queue.pending.length + 1),
       some ⟨m, b.queue.pending.length + 1⟩⟩ := by
  have hcond : (!b.isProcessing && b.queue.current.isNone) = false := by
    rcases hb with h | h
    · simp [h]
    · have hq : b.queue.current.isNone = false := by
        cases hq : b.queue.current with
        | none => exact absurd hq h
        | some t => rfl
      simp [hq]
  constructor <;> simp [enqueue, hcond]

/-- Enqueueing any number of tasks against a busy session yields positions
`p+1, p+2, ...` (where `p` is the pending count) and task ids counting up
from the fresh counter. -/
lemma enqueueAll_busy (cs : List String) : ∀ (s : Session) (n : Nat),
    s.isProcessing = true →
    (enqueueAll s n cs).2 =
      (List.range cs.length).map (fun i =>
        ⟨true, queuedMessage (s.queue.pending.length + i + 1),
         some ⟨n + i, s.queue.pending.length + i + 1⟩⟩) := by
  induction cs with
  | nil => intro s n _; rfl
  | cons c cs ih =>
      intro s n hb
      have h1 := enqueue_busy s n .prompt c (Or.inl hb)
      have hb1 : (enqueue s n .prompt c).1.isProcessing = true := by
        rw [h1.1]; exact hb
      have hlen : (enqueue s n .prompt c).1.queue.pending.length
          = s.queue.pending.length + 1 := by
        rw [h1.1]; simp
      show ((enqueue s n .prompt c).2 :: (enqueueAll (enqueue s n .prompt c).1 (n + 1) cs).2) = _
      rw [ih _ (n + 1) hb1, h1.2, hlen]
      rw [List.length_cons, List.range_succ_eq_map, List.map_cons, List.map_map]
      refine congrArg₂ _ (by simp) ?_
      refine List.map_congr_left (fun i _ => ?_)
      simp only [Function.comp_apply]
      refine congrArg₂ _ ?_ ?_
      · have : s.queue.pending.length + 1 + i + 1 = s.queue.pending.length + (i + 1) + 1 := by
          omega
        rw [this]
      · have h2 : n + 1 + i = n + (i + 1) := by omega
        have h3 : s.queue.pending.length + 1 + i + 1 = s.queue.pending.length + (i + 1) + 1 := by
          omega
        rw [h2, h3]

/-- C1.  On an idle, empty-queue session `enqueue` makes the task current,
sets `isProcessing`, and acknowledges with an empty message; on a busy
session it appends to `pending` and reports the 1-based position; and a
sequence of `N` enqueues against an idle empty-queue session executes
exactly the first immediately while the remaining `N−1` receive strictly
increasing positions `1..N−1` in submission order. -/
theorem enqueue_immediate_and_queue_positions
    (s : Session) (n : Nat) (c : String) (cs : List String)
    (hproc : s.isProcessing = false) (hcur : s.queue.current = none)
    (hpend : s.queue.pending = []) :
    (enqueue s n .prompt c).2 = ⟨true, "", none⟩ ∧
    (enqueue s n .prompt c).1.queue.current = some ⟨n, .prompt, c⟩ ∧
    (enqueue s n .prompt c).1.isProcessing = true ∧
    (∀ (b : Session) (m : Nat) (tt : TaskType) (d : String),
      b.isProcessing = true ∨ b.queue.current ≠ none →
      (enqueue b m tt d).1.queue.pending = b.queue.pending ++ [⟨m, tt, d⟩] ∧
      (enqueue b m tt d).2 =
        ⟨true, queuedMessage (b.queue.pending.length + 1),
         some ⟨m, b.queue.pending.length + 1⟩⟩) ∧
    (enqueueAll s n (c :: cs)).2 =
      ⟨true, "", none⟩ ::
        (List.range cs.length).map (fun i =>
          ⟨true, queuedMessage (i + 1), some ⟨n + 1 + i, i + 1⟩⟩) := by
  have hcond : (!s.isProcessing && s.queue.current.isNone) = true := by
    simp [hproc, hcur]
  refine ⟨by simp [enqueue, hcond], by simp [enqueue, hcond], by simp [enqueue, hcond],
    fun b m tt d hb => ⟨by rw [(enqueue_busy b m tt d hb).1], (enqueue_busy b m tt d hb).2⟩,
    ?_⟩
  show ((enqueue s n .prompt c).2 :: (enqueueAll (enqueue s n .prompt c).1 (n + 1) cs).2) = _
  have himm : (enqueue s n .prompt c).1 =
      { s with queue := { s.queue with current := some ⟨n, .prompt, c⟩ },
               isProcessing := true } := by
    simp [enqueue, hcond]
  rw [enqueueAll_busy cs _ (n + 1) (by rw [himm]), himm]
  refine congrArg₂ _ (by simp [enqueue, hcond]) ?_
  refine List.map_congr_left (fun i _ => ?_)
  simp [hpend]

/-- Witness for `enqueue_immediate_and_queue_positions` at a concrete idle
session and three enqueues. -/
theorem enqueue_immediate_and_queue_positions_witness :
    (enqueue idleSession 0 .prompt "A").2 = ⟨true, "", none⟩ ∧
    (enqueueAll idleSession 0 ["A", "B", "C"]).2 =
      [⟨true, "", none⟩,
       ⟨true, queuedMessage 1, some ⟨1, 1⟩⟩,
       ⟨true, queuedMessage 2, some ⟨2, 2⟩⟩] := by
  have h := enqueue_immediate_and_queue_positions idleSession 0 "A" ["B", "C"]
    (by decide) (by decide) (by decide)
  exact ⟨h.1, by rw [h.2.2.2.2]; decide⟩

/-- Value of `taskIds` when a task is current. -/
lemma taskIds_some {s : Session} {t : Task} (h : s.queue.current = some t) :
    taskIds s = t.id :: s.queue.pending.map Task.id := by
  simp [taskIds, h]

/-- Value of `taskIds` when no task is current. -/
lemma taskIds_none {s : Session} (h : s.queue.current = none) :
    taskIds s = s.queue.pending.map Task.id := by
  simp [taskIds, h]

/-- Operation `enqueue` preserves the queue invariant (and bumps the fresh counter). -/
lemma qinv_enq (s : Session) (n : Nat) (h : QInv s n) (tt : TaskType) (ct : String) :
    QInv (enqueue s n tt ct).1 (n + 1) := by
  obtain ⟨hbound, hnodup, hproc⟩ := h
  by_cases hcond : (!s.isProcessing && s.queue.current.isNone) = true
  · have hcur : s.queue.current = none := by
      cases hc : s.queue.current with
      | none => rfl
      | some t => rw [hc] at hcond; simp at hcond
    have hs : (enqueue s n tt ct).1 =
        { s with
            queue := { s.queue with current := some ⟨n, tt, ct⟩ },
            isProcessing := true } := by
      simp [enqueue, hcond]
    have hids : taskIds (enqueue s n tt ct).1 =
        n :: s.queue.pending.map Task.id := by
      rw [hs]; simp [taskIds]
    rw [taskIds_none hcur] at hbound hnodup
    refine ⟨?_, ?_, ?_⟩
    · intro i hi
      rw [hids] at hi
      rcases List.mem_cons.mp hi with h | h
      · omega
      · exact Nat.lt_succ_of_lt (hbound i h)
    · rw [hids]
      exact List.nodup_cons.mpr ⟨fun hmem => Nat.lt_irrefl _ (hbound _ hmem), hnodup⟩
    · intro _
      rw [hs]
      simp
  · have hcond' : (!s.isProcessing && s.queue.current.isNone) = false :=
      Bool.eq_false_iff.mpr hcond
    have hs : (enqueue s n tt ct).1 =
        { s with
            queue := { s.queue with
              pending := s.queue.pending ++ [⟨n, tt, ct⟩] } } := by
      simp [enqueue, hcond']
    have hids : taskIds (enqueue s n tt ct).1 =
        taskIds s ++ [n] := by
      rw [hs]
      cases hc : s.queue.current with
      | none => simp [taskIds, hc]
      | some t => simp [taskIds, hc]
    refine ⟨?_, ?_, ?_⟩
    · intro i hi
      rw [hids] at hi
      rcases List.mem_append.mp hi with h | h
      · exact Nat.lt_succ_of_lt (hbound i h)
      · simp at h; omega
    · rw [hids, List.nodup_append]
      refine ⟨hnodup, List.nodup_singleton _, ?_⟩
      intro i hi hi'
      simp at hi'
      subst hi'
      exact Nat.lt_irrefl _ (hbound _ hi)
    · intro hp
      rw [hs] at hp
      simp at hp
      have := hproc hp
      rw [hs]
      simpa using this

/-- Operation `processNext` preserves the queue invariant. -/
lemma qinv_advance (s : Session) (n : Nat) (h : QInv s n) :
    QInv (processNext s) n := by
  obtain ⟨hbound, hnodup, _⟩ := h
  cases hp : s.queue.pending with
  | nil =>
      have hs : processNext s =
          { s with queue := ⟨[], none⟩, isProcessing := false } := by
        simp [processNext, hp]
      refine ⟨?_, ?_, ?_⟩ <;> rw [hs] <;> simp [taskIds]
  | cons u rest =>
      have hs : processNext s =
          { s with queue := ⟨rest, some u⟩ } := by
        simp [processNext, hp]
      have hids : taskIds (processNext s) =
          s.queue.pending.map Task.id := by
        rw [hs]; simp [taskIds, hp]
      have hsub : (s.queue.pending.map Task.id).IsSuffix (taskIds s) :=
        ⟨_, rfl⟩
      refine ⟨?_, ?_, ?_⟩
      · intro i hi
        rw [hids] at hi
        exact hbound i (hsub.sublist.mem hi)
      · rw [hids]
        exact hnodup.sublist hsub.sublist
      · intro _
        rw [hs]
        simp

/-- Helper `removeFirstTask` returns a sublist. -/
lemma removeFirstTask_sublist :
    ∀ (l : List Task) (tid : Nat) (l' : List Task),
      removeFirstTask l tid = some l' → l'.Sublist l := by
  intro l
  induction l with
  | nil => intro tid l' h; simp [removeFirstTask] at h
  | cons t ts ih =>
      intro tid l' h
      by_cases ht : t.id = tid
      · simp [removeFirstTask, ht] at h
        subst h
        exact List.sublist_cons_self t ts
      · simp [removeFirstTask, ht] at h
        cases hrec : removeFirstTask ts tid with
        | none => rw [hrec] at h; simp at h
        | some m =>
            rw [hrec] at h
            simp at h
            subst h
            exact (ih tid m hrec).cons₂ t

/-- Operation `stopTask` preserves the queue invariant. -/
lemma qinv_stop (s : Session) (n : Nat) (h : QInv s n) (target : StopTarget) :
    QInv (stopTask s target).1 n := by
  obtain ⟨hbound, hnodup, hproc⟩ := h
  cases target with
  | all =>
      refine ⟨?_, ?_, ?_⟩ <;> simp [stopTask, taskIds]
  | one tid =>
      cases hr : removeFirstTask s.queue.pending tid with
      | none =>
          have hs : (stopTask s (.one tid)).1 = s := by
            simp [stopTask, hr]
          rw [hs]
          exact ⟨hbound, hnodup, hproc⟩
      | some l' =>
          have hsub := removeFirstTask_sublist _ tid l' hr
          have hs : (stopTask s (.one tid)).1 =
              { s with queue := { s.queue with pending := l' } } := by
            simp [stopTask, hr]
          have hidsub :
              (taskIds (stopTask s (.one tid)).1).Sublist (taskIds s) := by
            rw [hs]
            cases hc : s.queue.current with
            | none =>
                simp [taskIds, hc]
                exact hsub.map Task.id
            | some t =>
                simp [taskIds, hc]
                exact hsub.map Task.id
          refine ⟨?_, hnodup.sublist hidsub, ?_⟩
          · intro i hi
            exact hbound i (hidsub.mem hi)
          · intro hp
            rw [hs] at hp
            simp at hp
            have := hproc hp
            rw [hs]
            simpa using this
  | current =>
      by_cases hc : (s.queue.current.isSome && s.acpClient) = true
      · have hs : (stopTask s .current).1 =
            { s with
                queue := { s.queue with current := none },
                isProcessing := false } := by
          simp [stopTask, hc]
        have heq : taskIds { s with
            queue := { s.queue with current := none },
            isProcessing := false } = s.queue.pending.map Task.id := by
          simp [taskIds]
        refine ⟨?_, ?_, ?_⟩
        · intro i hi
          rw [hs, heq] at hi
          refine hbound i ?_
          cases hcc : s.queue.current with
          | none => rw [taskIds_none hcc]; exact hi
          | some t => rw [taskIds_some hcc]; exact List.mem_cons_of_mem _ hi
        · rw [hs, heq]
          cases hcc : s.queue.current with
          | none => rw [taskIds_none hcc] at hnodup; exact hnodup
          | some t =>
              rw [taskIds_some hcc] at hnodup
              exact (List.nodup_cons.mp hnodup).2
        · intro hp
          rw [hs] at hp
          simp at hp
      · have hc' : (s.queue.current.isSome && s.acpClient) = false :=
          Bool.eq_false_iff.mpr hc
        have hs : (stopTask s .current).1 = s := by
          simp [stopTask, hc']
        rw [hs]
        exact ⟨hbound, hnodup, hproc⟩

/-- Every reachable queue-system state satisfies the invariant. -/
lemma qreach_inv (σ0 σ : QSys) (h0 : QInv σ0.session σ0.nextId)
    (h : QReach σ0 σ) : QInv σ.session σ.nextId := by
  induction h with
  | refl => exact h0
  | step _ hstep ih =>
      cases hstep with
      | enq tt ct => exact qinv_enq _ _ ih tt ct
      | advance => exact qinv_advance _ _ ih
      | stop target => exact qinv_stop _ _ ih target

/-- C2 (amended).  In every queue state reachable from a freshly initialised
session by enqueue, advance and stop operations: at most one task is
current, `pending` never contains the task referenced by `current`, and
`isProcessing = true` implies a task is current.  (The converse of the last
implication fails — see the counterexample.) -/
theorem queue_invariants_amended (σ0 σ : QSys) (h0 : InitialQSys σ0)
    (h : QReach σ0 σ) :
    (∀ t u : Task, σ.session.queue.current = some t →
      σ.session.queue.current = some u → t = u) ∧
    (∀ t ∈ σ.session.queue.pending, σ.session.queue.current ≠ some t) ∧
    (σ.session.isProcessing = true → σ.session.queue.current ≠ none) := by
  obtain ⟨hp0, hc0, hpr0⟩ := h0
  have hinv0 : QInv σ0.session σ0.nextId := by
    refine ⟨?_, ?_, ?_⟩ <;> simp [taskIds, hp0, hc0, hpr0]
  obtain ⟨_, hnodup, hproc⟩ := qreach_inv σ0 σ hinv0 h
  refine ⟨?_, ?_, hproc⟩
  · intro t u ht hu
    rw [ht] at hu
    exact Option.some.inj hu
  · intro t ht hcur
    rw [taskIds_some hcur] at hnodup
    exact (List.nodup_cons.mp hnodup).1 (List.mem_map_of_mem Task.id ht)

/-- Witness for `queue_invariants_amended`: after two enqueues on a fresh
session, the pending task is not the current task. -/
theorem queue_invariants_amended_witness :
    (enqueue (enqueue idleSession 0 .prompt "A").1 1 .prompt "B").1.queue.current
      ≠ some ⟨1, .prompt, "B"⟩ :=
  (queue_invariants_amended ⟨idleSession, 0⟩
      ⟨(enqueue (enqueue idleSession 0 .prompt "A").1 1 .prompt "B").1, 2⟩
      ⟨rfl, rfl, rfl⟩
      ((QReach.refl.step (QStep.enq _ .prompt "A")).step (QStep.enq _ .prompt "B"))).2.1
    ⟨1, .prompt, "B"⟩ (by decide)

/-- C2 counterexample.  The state reached by: enqueue "A"; enqueue "B"; stop
the current task; then the stopped task's completion runs `processNext`, is
reachable and has a current task while `isProcessing` is `false` — so
"`isProcessing` is true if and only if `current` is non-empty" fails on the
lock-based queue engine. -/
theorem queue_isProcessing_iff_counterexample :
    InitialQSys ⟨idleSession, 0⟩ ∧
    QReach ⟨idleSession, 0⟩ stopThenAdvance ∧
    stopThenAdvance.session.queue.current = some ⟨1, .prompt, "B"⟩ ∧
    stopThenAdvance.session.isProcessing = false := by
  refine ⟨⟨rfl, rfl, rfl⟩, ?_, by decide, by decide⟩
  exact (((QReach.refl.step (QStep.enq _ .prompt "A")).step
    (QStep.enq _ .prompt "B")).step (QStep.stop _ .current)).step (QStep.advance _)

/-- After filtering a request id out of the mapping, that id is no longer
found. -/
lemma find?_filter_rid (l : List (String × PendingInteraction)) (rid : String) :
    (l.filter (fun p => p.1 ≠ rid)).find? (fun p => p.1 = rid) = none := by
  induction l with
  | nil => rfl
  | cons p ps ih =>
      by_cases h : p.1 = rid
      · simp [List.filter_cons, h, ih]
      · simp [List.filter_cons, h, List.find?_cons, ih]

/-- The body of `resolveInteraction` fails with the not-found response when the
request id is absent from the session's mapping. -/
lemma resolveInSession_notfound (s : Session) (rid arg : String)
    (h : s.pendingInteractions.find? (fun p => p.1 = rid) = none) :
    resolveInSession s rid arg =
      (s, ⟨false, "Permission request not found or expired", none⟩, none) := by
  simp [resolveInSession, h]

/-- The timeout callback does nothing when the request id is absent. -/
lemma timeoutFireSession_notfound (s : Session) (rid : String)
    (h : s.pendingInteractions.find? (fun p => p.1 = rid) = none) :
    timeoutFireSession s rid = (s, none) := by
  simp [timeoutFireSession, h]

/-- When an explicit resolution invokes the continuation, the resulting
session's mapping is the old one with the request id filtered out. -/
lemma resolveInSession_invoked (s : Session) (rid arg : String) (s' : Session)
    (resp : IMResponse) (v : String)
    (h : resolveInSession s rid arg = (s', resp, some v)) :
    s'.pendingInteractions =
      s.pendingInteractions.filter (fun p => p.1 ≠ rid) := by
  cases hf : s.pendingInteractions.find? (fun p => p.1 = rid) with
  | none =>
      rw [resolveInSession_notfound s rid arg hf] at h
      simp at h
  | some pr =>
      cases hfo : finalOptionId pr.2.options arg with
      | none =>
          have heq : resolveInSession s rid arg =
              (s, ⟨false, invalidOptionMessage arg pr.2.options, none⟩, none) := by
            simp [resolveInSession, hf, hfo]
          rw [heq] at h
          simp at h
      | some fid =>
          have heq : resolveInSession s rid arg =
              ({ s with pendingInteractions :=
                  s.pendingInteractions.filter (fun p => p.1 ≠ rid) },
               ⟨true, "已选择选项: " ++ fid, none⟩, some fid) := by
            simp [resolveInSession, hf, hfo]
          rw [heq] at h
          have h1 := congrArg (fun x => x.1.pendingInteractions) h
          simpa using h1.symm

/-- When the timeout invokes the continuation, the resulting session's
mapping is the old one with the request id filtered out. -/
lemma timeoutFireSession_invoked (s : Session) (rid : String) (s' : Session)
    (v : String) (h : timeoutFireSession s rid = (s', some v)) :
    s'.pendingInteractions =
      s.pendingInteractions.filter (fun p => p.1 ≠ rid) := by
  cases hf : s.pendingInteractions.find? (fun p => p.1 = rid) with
  | none =>
      rw [timeoutFireSession_notfound s rid hf] at h
      simp at h
  | some pr =>
      have heq : timeoutFireSession s rid =
          ({ s with pendingInteractions :=
              s.pendingInteractions.filter (fun p => p.1 ≠ rid) },
           some (fallbackOption pr.2.options)) := by
        simp [timeoutFireSession, hf]
      rw [heq] at h
      have h1 := congrArg (fun x => x.1.pendingInteractions) h
      simpa using h1.symm

/-- C3.  Interaction resolution is single-fire: once a resolution (explicit
or timeout) has invoked the continuation, the request id is gone from the
mapping, a second explicit call fails with the "not found or expired"
response without invoking anything, and a later timeout firing invokes
nothing — regardless of which kind of resolution came first. -/
theorem interaction_single_fire (s : Session) (rid arg arg2 : String) :
    (∀ (s' : Session) (resp : IMResponse) (v : String),
      resolveInSession s rid arg = (s', resp, some v) →
      s'.pendingInteractions.find? (fun p => p.1 = rid) = none ∧
      resolveInSession s' rid arg2 =
        (s', ⟨false, "Permission request not found or expired", none⟩, none) ∧
      timeoutFireSession s' rid = (s', none)) ∧
    (∀ (s' : Session) (v : String),
      timeoutFireSession s rid = (s', some v) →
      s'.pendingInteractions.find? (fun p => p.1 = rid) = none ∧
      resolveInSession s' rid arg2 =
        (s', ⟨false, "Permission request not found or expired", none⟩, none) ∧
      timeoutFireSession s' rid = (s', none)) := by
  constructor
  · intro s' resp v h
    have hgone : s'.pendingInteractions.find? (fun p => p.1 = rid) = none := by
      rw [resolveInSession_invoked s rid arg s' resp v h]
      exact find?_filter_rid _ rid
    exact ⟨hgone, resolveInSession_notfound s' rid arg2 hgone,
      timeoutFireSession_notfound s' rid hgone⟩
  · intro s' v h
    have hgone : s'.pendingInteractions.find? (fun p => p.1 = rid) = none := by
      rw [timeoutFireSession_invoked s rid s' v h]
      exact find?_filter_rid _ rid
    exact ⟨hgone, resolveInSession_notfound s' rid arg2 hgone,
      timeoutFireSession_notfound s' rid hgone⟩

/-- Witness for `interaction_single_fire`: resolving the concrete
permission request by index `1` and then attempting a second resolution. -/
theorem interaction_single_fire_witness :
    (resolveInSession (resolveInSession permSession "r" "1").1 "r" "0").2.1 =
      ⟨false, "Permission request not found or expired", none⟩ := by
  have h := (interaction_single_fire permSession "r" "1" "0").1
    (resolveInSession permSession "r" "1").1
    ⟨true, "已选择选项: deny", none⟩ "deny" (by decide)
  rw [h.2.1]

/-- C4.  `resolveInteraction` fails with `Session not found` when the
session is absent, with `Permission request not found or expired` when the
interaction is absent, and with a message enumerating the valid ids and the
index range when neither an id nor a valid index matches; on the
allow/deny request, `"1"` selects `deny`, `"allow"` selects `allow`, and
`"5"`/`"bogus"` produce the enumerating invalid-option message. -/
theorem resolveInteraction_matching :
    (∀ (sessions : List Session) (sid rid arg : String),
      sessions.find? (fun s => s.id = sid) = none →
      resolveInteraction sessions sid rid arg =
        (sessions, ⟨false, "Session not found", none⟩, none)) ∧
    (∀ (s : Session) (rid arg : String),
      s.pendingInteractions.find? (fun p => p.1 = rid) = none →
      resolveInSession s rid arg =
        (s, ⟨false, "Permission request not found or expired", none⟩, none)) ∧
    (∀ (s : Session) (rid arg : String) (pr : String × PendingInteraction),
      s.pendingInteractions.find? (fun p => p.1 = rid) = some pr →
      finalOptionId pr.2.options arg = none →
      resolveInSession s rid arg =
        (s, ⟨false, invalidOptionMessage arg pr.2.options, none⟩, none)) ∧
    (resolveInSession permSession "r" "1").2.2 = some "deny" ∧
    (resolveInSession permSession "r" "allow").2.2 = some "allow" ∧
    (resolveInSession permSession "r" "5").2.1 =
      ⟨false, "无效的选项: 5。可选: allow, deny 或序号 0-1", none⟩ ∧
    (resolveInSession permSession "r" "bogus").2.1 =
      ⟨false, "无效的选项: bogus。可选: allow, deny 或序号 0-1", none⟩ ∧
    strHasSub (invalidOptionMessage "5" allowDenyOptions) "allow, deny" = true ∧
    strHasSub (invalidOptionMessage "5" allowDenyOptions) "0-1" = true := by
  refine ⟨?_, ?_, ?_, by decide, by decide, by decide, by decide, by decide, by decide⟩
  · intro sessions sid rid arg h
    simp [resolveInteraction, h]
  · intro s rid arg h
    exact resolveInSession_notfound s rid arg h
  · intro s rid arg pr h1 h2
    simp [resolveInSession, h1, h2]

/-- Witness for `resolveInteraction_matching`: the not-found branches at
concrete inputs. -/
theorem resolveInteraction_matching_witness :
    resolveInteraction [] "sid" "r" "1" =
      ([], ⟨false, "Session not found", none⟩, none) ∧
    resolveInSession idleSession "r" "1" =
      (idleSession, ⟨false, "Permission request not found or expired", none⟩, none) :=
  ⟨resolveInteraction_matching.1 [] "sid" "r" "1" rfl,
   resolveInteraction_matching.2.1 idleSession "r" "1" rfl⟩

/-- C10.  A numeric input that is a valid zero-based index always resolves
by position, even when some option's id equals the input text; option-id
equality is consulted only when the input is not a valid index.  Repo
selections use the repos' 1-based indices as option ids, so the reply `"1"`
selects the option at index 1 (id `"2"`), not the option whose id is
`"1"`. -/
theorem numeric_index_precedence :
    (∀ (options : List PendingOption) (arg : String) (i : Int),
      parseIntJS arg = some i → 0 ≤ i → i < (options.length : Int) →
      finalOptionId options arg = some (options.getD i.toNat ⟨"", ""⟩).optionId) ∧
    (∀ (options : List PendingOption) (arg : String),
      (∀ j : Int, parseIntJS arg = some j → ¬(0 ≤ j ∧ j < (options.length : Int))) →
      finalOptionId options arg =
        (if options.any (fun o => o.optionId = arg) then some arg else none)) ∧
    (∀ (s : Session) (rid arg : String) (pr : String × PendingInteraction) (i : Int),
      s.pendingInteractions.find? (fun p => p.1 = rid) = some pr →
      parseIntJS arg = some i → 0 ≤ i → i < (pr.2.options.length : Int) →
      (resolveInSession s rid arg).2.2 =
        some (pr.2.options.getD i.toNat ⟨"", ""⟩).optionId) ∧
    repoSelectionOptions [⟨1, "alpha", "/a"⟩, ⟨2, "beta", "/b"⟩] =
      [⟨"1", "alpha"⟩, ⟨"2", "beta"⟩] ∧
    finalOptionId (repoSelectionOptions [⟨1, "alpha", "/a"⟩, ⟨2, "beta", "/b"⟩]) "1" =
      some "2" := by
  have hidx : ∀ (options : List PendingOption) (arg : String) (i : Int),
      parseIntJS arg = some i → 0 ≤ i → i < (options.length : Int) →
      finalOptionId options arg = some (options.getD i.toNat ⟨"", ""⟩).optionId := by
    intro options arg i hp h0 hlt
    simp only [finalOptionId, hp]
    rw [if_pos ⟨h0, hlt⟩]
  refine ⟨hidx, ?_, ?_, by decide, by decide⟩
  · intro options arg hj
    cases hp : parseIntJS arg with
    | none => simp [finalOptionId, hp]
    | some j =>
        simp only [finalOptionId, hp]
        rw [if_neg (hj j hp)]
  · intro s rid arg pr i h1 hp h0 hlt
    simp [resolveInSession, h1, hidx pr.2.options arg i hp h0 hlt]

/-- Witness for `numeric_index_precedence` on the allow/deny request. -/
theorem numeric_index_precedence_witness :
    finalOptionId allowDenyOptions "1" = some "deny" := by
  have h := numeric_index_precedence.1 allowDenyOptions "1" 1 (by decide) (by decide)
    (by decide)
  rw [h]
  decide

/-- When every option id is a non-empty string, the JS `||` chain computes
exactly the spec's preference order. -/
lemma fallbackOption_eq_spec (options : List PendingOption)
    (hids : ∀ o ∈ options, o.optionId ≠ "") :
    fallbackOption options = fallbackOptionSpec options := by
  unfold fallbackOption fallbackOptionSpec
  cases hf : options.find? isDenyOrCancel with
  | some o =>
      have ho : o ∈ options := List.mem_of_find?_eq_some hf
      simp [jsOrStr, hids o ho]
  | none =>
      cases hopts : options with
      | nil => simp [jsOrStr]
      | cons o rest =>
          have ho : o ∈ options := by rw [hopts]; exact List.mem_cons_self o rest
          simp [jsOrStr, hids o ho]

/-- C5 (amended).  When the timed-out request is still pending and its
option ids are non-empty strings, the timeout auto-resolution invokes the
continuation with the spec's fallback (first deny/cancel-labelled option,
else first option, else the literal `"deny"`), removes the interaction, and
a second firing is a no-op. -/
theorem timeout_fallback_amended (s : Session) (rid : String)
    (pr : String × PendingInteraction)
    (hfind : s.pendingInteractions.find? (fun p => p.1 = rid) = some pr)
    (hids : ∀ o ∈ pr.2.options, o.optionId ≠ "") :
    timeoutFireSession s rid =
      ({ s with pendingInteractions :=
          s.pendingInteractions.filter (fun p => p.1 ≠ rid) },
       some (fallbackOptionSpec pr.2.options)) ∧
    (timeoutFireSession s rid).1.pendingInteractions.find?
      (fun p => p.1 = rid) = none ∧
    timeoutFireSession (timeoutFireSession s rid).1 rid =
      ((timeoutFireSession s rid).1, none) := by
  have heq : timeoutFireSession s rid =
      ({ s with pendingInteractions :=
          s.pendingInteractions.filter (fun p => p.1 ≠ rid) },
       some (fallbackOption pr.2.options)) := by
    simp [timeoutFireSession, hfind]
  have hgone : (timeoutFireSession s rid).1.pendingInteractions.find?
      (fun p => p.1 = rid) = none := by
    rw [heq]
    exact find?_filter_rid s.pendingInteractions rid
  refine ⟨?_, hgone, timeoutFireSession_notfound _ rid hgone⟩
  rw [heq, fallbackOption_eq_spec pr.2.options hids]

/-- Witness for `timeout_fallback_amended` on the allow/deny request. -/
theorem timeout_fallback_amended_witness :
    timeoutFireSession permSession "r" =
      ({ permSession with pendingInteractions := [] }, some "deny") := by
  have h := timeout_fallback_amended permSession "r"
    ("r", ⟨.permission, "Test Tool", allowDenyOptions⟩) (by decide) (by decide)
  rw [h.1]
  decide

/-- C5 counterexample.  With options `[{id:"x",label:"allow"},
{id:"",label:"deny"}]` the deny-labelled option exists, yet the timeout
resolves with `"x"` — the first option's id — because the matched option's
empty id is falsy under JS `||`; the claim's preference order would resolve
with `""`. -/
theorem timeout_fallback_counterexample :
    isDenyOrCancel ⟨"", "deny"⟩ = true ∧
    emptyIdOptions.find? isDenyOrCancel = some ⟨"", "deny"⟩ ∧
    (timeoutFireSession emptyIdSession "r").2 = some "x" ∧
    fallbackOptionSpec emptyIdOptions = "" ∧
    ("x" : String) ≠ "" := by decide

/-- C6.  On a session whose agent handle is missing while a task is current
and another pending, `processTask` delivers the failure result but returns
before its `try`/`finally`, so the advance step never runs: the session is
left unchanged with the stale current task (where the advance step would
have changed it), and the queue is stuck.  The older `processTask` variant
advanced explicitly on this path. -/
theorem processTask_missing_handle_stuck :
    (processTask stuckSession (.thrown "boom")).1 = stuckSession ∧
    (processTask stuckSession (.thrown "boom")).2 =
      ⟨false, "系统错误：ACP 客户端未初始化", none⟩ ∧
    processNext stuckSession ≠ stuckSession ∧
    (processTaskLegacy stuckSession (.thrown "boom")).1 =
      processNextLegacy stuckSession ∧
    (processTask { stuckSession with acpClient := true } (.thrown "boom")).2 =
      ⟨false, "处理失败: boom", none⟩ ∧
    (processTask { stuckSession with acpClient := true } (.thrown "boom")).1 =
      processNext { stuckSession with acpClient := true } := by decide

/-- C7.  While the allow/deny permission request is pending, a new free-text
prompt stops the current task and enqueues the new text, but the
`resolveInteraction(.., 'cancel')` cleanup calls fail as invalid options
(`'cancel'` is neither an option id nor an index), invoke no continuation,
and leave the pending-interaction mapping non-empty. -/
theorem implicit_cancel_leaves_interaction :
    (handlePromptBusy busyPermSession 7 "new instruction").1.pendingInteractions =
      [("r", ⟨.permission, "Test Tool", allowDenyOptions⟩)] ∧
    (handlePromptBusy busyPermSession 7 "new instruction").2.2 = [none] ∧
    (resolveInSession (stopTask busyPermSession .current).1 "r" "cancel").2.1 =
      ⟨false, "无效的选项: cancel。可选: allow, deny 或序号 0-1", none⟩ ∧
    (handlePromptBusy busyPermSession 7 "new instruction").1.queue.current =
      some ⟨7, .prompt, "new instruction"⟩ := by decide

/-- Appending a fresh binding makes it findable when the key was absent. -/
lemma lookupKey_append_self (sessions : List (String × Session)) (key : String)
    (s : Session) (h : lookupKey sessions key = none) :
    lookupKey (sessions ++ [(key, s)]) key = some s := by
  induction sessions with
  | nil => simp [lookupKey]
  | cons p ps ih =>
      unfold lookupKey at h ih ⊢
      by_cases hp : p.1 = key
      · rw [List.find?_cons_of_pos _ (by simp [hp])] at h
        simp at h
      · rw [List.cons_append, List.find?_cons_of_neg _ (by simp [hp])]
        rw [List.find?_cons_of_neg _ (by simp [hp])] at h
        exact ih h

/-- C8 (amended).  When no session exists for the key and the agent handle
fails to start, the failure propagates, but the freshly created session
stays registered with a null handle and is observable via `getSession`; a
later `getOrCreateSession` for the same key retries the start on that very
session and succeeds. -/
theorem getOrCreateSession_failure_amended (sessions : List (String × Session))
    (pp uid : String) (cid : Option String) (newId newId2 e : String)
    (habs : lookupKey sessions (buildSessionKey pp uid cid) = none) :
    (getOrCreateSession sessions pp uid cid newId (.error e)).2 = .error e ∧
    getSession (getOrCreateSession sessions pp uid cid newId (.error e)).1
      pp uid cid = some (freshSession newId uid pp) ∧
    (freshSession newId uid pp).acpClient = false ∧
    (getOrCreateSession (getOrCreateSession sessions pp uid cid newId (.error e)).1
        pp uid cid newId2 (.ok ())).2 =
      .ok { freshSession newId uid pp with acpClient := true } := by
  have hfound := lookupKey_append_self sessions (buildSessionKey pp uid cid)
    (freshSession newId uid pp) habs
  have hcl : (freshSession newId uid pp).acpClient = false := rfl
  have hmain : getOrCreateSession sessions pp uid cid newId (.error e) =
      (sessions ++ [(buildSessionKey pp uid cid, freshSession newId uid pp)],
       .error e) := by
    simp [getOrCreateSession, habs, hfound, hcl]
  refine ⟨by rw [hmain], ?_, rfl, ?_⟩
  · rw [hmain]
    exact hfound
  · rw [hmain]
    simp [getOrCreateSession, hfound, hcl]

/-- Witness for `getOrCreateSession_failure_amended` at a concrete empty
registry. -/
theorem getOrCreateSession_failure_amended_witness :
    (getOrCreateSession [] "p" "u" (some "c") "s1" (.error "boom")).2 =
      .error "boom" :=
  (getOrCreateSession_failure_amended [] "p" "u" (some "c") "s1" "s2" "boom" rfl).1

/-- C8 counterexample.  After the failed creation the registry still finds a
session for the key, and that session lacks a usable handle — rather than
the registration having been rolled back. -/
theorem getOrCreateSession_failure_counterexample :
    (getOrCreateSession [] "p" "u" none "s1" (.error "boom")).2 = .error "boom" ∧
    getSession (getOrCreateSession [] "p" "u" none "s1" (.error "boom")).1
      "p" "u" none = some (freshSession "s1" "u" "p") ∧
    (freshSession "s1" "u" "p").acpClient = false :=
  ⟨rfl, by decide, by decide⟩

/-- String equality is data equality. -/
lemma string_eq_iff_data {a b : String} : a = b ↔ a.data = b.data := by
  constructor
  · intro h; rw [h]
  · intro h; cases a; cases b; exact congrArg String.mk h

/-- Appending strings appends the underlying character lists. -/
lemma string_data_append (a b : String) : (a ++ b).data = a.data ++ b.data := by
  cases a; cases b; rfl

/-- The data of the separator. -/
lemma colon_data : (":" : String).data = [':'] := rfl

/-- Cancelling a colon-free prefix before the first separator. -/
lemma append_colon_inj : ∀ (u1 u2 r1 r2 : List Char),
    (∀ c ∈ u1, c ≠ ':') → (∀ c ∈ u2, c ≠ ':') →
    u1 ++ ':' :: r1 = u2 ++ ':' :: r2 → u1 = u2 ∧ r1 = r2 := by
  intro u1
  induction u1 with
  | nil =>
      intro u2 r1 r2 _ h2 h
      cases u2 with
      | nil => simpa using h
      | cons c t =>
          simp at h
          exact absurd h.1.symm (h2 c (List.mem_cons_self c t))
  | cons c t ih =>
      intro u2 r1 r2 h1 h2 h
      cases u2 with
      | nil =>
          simp at h
          exact absurd h.1 (h1 c (List.mem_cons_self c t))
      | cons c' t' =>
          simp at h
          obtain ⟨hc, hrest⟩ := h
          obtain ⟨ht, hr⟩ := ih t' r1 r2
            (fun x hx => h1 x (List.mem_cons_of_mem _ hx))
            (fun x hx => h2 x (List.mem_cons_of_mem _ hx)) hrest
          exact ⟨by rw [hc, ht], hr⟩

/-- The character list underlying a session key. -/
lemma buildSessionKey_data (pp u : String) (c : Option String) :
    (buildSessionKey pp u c).data =
      match c with
      | some cc => u.data ++ ':' :: (cc.data ++ ':' :: pp.data)
      | none => u.data ++ ':' :: pp.data := by
  cases c with
  | none => simp [buildSessionKey, string_data_append, colon_data]
  | some cc => simp [buildSessionKey, string_data_append, colon_data]

/-- C9 (amended).  For a fixed project path, session keys built from
colon-free user ids and colon-free context ids coincide exactly when the
`(userId, contextId?)` pairs coincide; in particular a missing context id
never collides with a present one.  (Without the colon-freeness proviso the
claim fails — see the counterexample.) -/
theorem sessionKey_injective_amended (pp u1 u2 : String) (c1 c2 : Option String)
    (hu1 : ColonFree u1) (hu2 : ColonFree u2)
    (hc1 : ∀ c, c1 = some c → ColonFree c) (hc2 : ∀ c, c2 = some c → ColonFree c) :
    buildSessionKey pp u1 c1 = buildSessionKey pp u2 c2 ↔ (u1 = u2 ∧ c1 = c2) := by
  constructor
  · intro h
    rw [string_eq_iff_data, buildSessionKey_data, buildSessionKey_data] at h
    cases c1 with
    | none =>
        cases c2 with
        | none =>
            obtain ⟨hu, _⟩ := append_colon_inj u1.data u2.data pp.data pp.data hu1 hu2 h
            exact ⟨string_eq_iff_data.mpr hu, rfl⟩
        | some cc2 =>
            obtain ⟨_, hrest⟩ := append_colon_inj u1.data u2.data _ _ hu1 hu2 h
            have hlen := congrArg List.length hrest
            simp at hlen
            omega
    | some cc1 =>
        cases c2 with
        | none =>
            obtain ⟨_, hrest⟩ := append_colon_inj u1.data u2.data _ _ hu1 hu2 h
            have hlen := congrArg List.length hrest
            simp at hlen
            omega
        | some cc2 =>
            obtain ⟨hu, hrest⟩ := append_colon_inj u1.data u2.data _ _ hu1 hu2 h
            obtain ⟨hcc, _⟩ := append_colon_inj cc1.data cc2.data pp.data pp.data
              (hc1 cc1 rfl) (hc2 cc2 rfl) hrest
            exact ⟨string_eq_iff_data.mpr hu,
              congrArg some (string_eq_iff_data.mpr hcc)⟩
  · rintro ⟨h1, h2⟩
    rw [h1, h2]

/-- Witness for `sessionKey_injective_amended`: colon-free distinct user ids
give distinct keys. -/
theorem sessionKey_injective_amended_witness :
    buildSessionKey "p" "a" none ≠ buildSessionKey "p" "b" none := by
  intro h
  have hiff := sessionKey_injective_amended "p" "a" "b" none none
    (by unfold ColonFree; decide) (by unfold ColonFree; decide)
    (fun c hc => by simp at hc) (fun c hc => by simp at hc)
  exact absurd (hiff.mp h).1 (by decide)

/-- C9 counterexample.  The distinct triples `("a:b", no context, "p")` and
`("a", context "b", "p")` build the same key, so the registry yields the
same session for both. -/
theorem sessionKey_collision_counterexample :
    buildSessionKey "p" "a:b" none = buildSessionKey "p" "a" (some "b") ∧
    (("a:b" : String), (none : Option String)) ≠ (("a" : String), some "b") ∧
    (getSession (getOrCreateSession [] "p" "a:b" none "s1" (.ok ())).1
        "p" "a" (some "b")).map (fun s => s.id) = some "s1" := by
  refine ⟨by decide, by decide, by decide⟩

end Baton
